import Mathlib

/-!
Verification of the data-consistency core of the ai-shift-agent repository.

The development shallowly embeds the storage and cache layer of the
repository (src/storage/shift_storage.py, src/storage/user_storage.py,
src/storage/sheets_client.py, src/cache/redis_client.py, src/api/auth.py,
src/tasks/worker.py) as pure Lean functions over explicit state:

* the PostgreSQL shift table becomes a `List Shift`, with SQLAlchemy's
  `query(...).first()` / in-place mutation modelled as replace-first /
  append on the list;
* the user table becomes a `List UserRec`;
* Redis becomes an explicit `AuthState` with an association-list cache, a
  blacklist, and a `cacheUp` flag (the code's `_initialized` guard together
  with its catch-all handlers make an uninitialized and an erroring backend
  behave identically, so a single availability flag models both);
* Python `try/except` blocks that swallow an exception become a `match` on
  an explicit `Except`-valued outcome parameter, so "no error propagates to
  the caller" is visible in the type;
* calls into external libraries (Google Sheets transport, `hashlib`,
  `json.loads`) are modelled as explicit outcome parameters, since the
  repository only observes their results.
-/

namespace ShiftAgent

/-- Calendar date, the value of a parsed `YYYY-MM-DD` string. -/
structure Date where
  year : Nat
  month : Nat
  day : Nat
deriving DecidableEq

/-- A row of the `shifts` table, with exactly the columns the storage layer
reads and writes in `shift_storage.py`. -/
structure Shift where
  user_id : Nat
  shift_date : Date
  slot_1 : Option String
  slot_2 : Option String
  notes : Option String
  source : String
  synced_to_sheets : Bool
deriving DecidableEq

/-- A row of the users table, with the columns `user_storage.py` uses. -/
structure UserRec where
  id : Nat
  name : String
  api_key : String
  is_active : Bool
  is_admin : Bool
deriving DecidableEq

/-- The freshly written shift record of `save_shift`: both the update branch
(which overwrites `slot_1`, `slot_2`, `notes`, `source` and clears
`synced_to_sheets`) and the insert branch produce exactly these fields. -/
def mkShift (uid : Nat) (d : Date) (s1 s2 n : Option String) (src : String) : Shift :=
  ⟨uid, d, s1, s2, n, src, false⟩

/-- Replace the first record with key `(uid, d)` by `newRec`, or append
`newRec` if no record matches: this is `save_shift`'s
`query(Shift).filter_by(user_id, shift_date).first()` followed by either an
in-place update or `session.add`. -/
def upsertFirst (uid : Nat) (d : Date) (newRec : Shift) : List Shift → List Shift
  | [] => [newRec]
  | r :: rs =>
    if r.user_id = uid ∧ r.shift_date = d then newRec :: rs
    else r :: upsertFirst uid d newRec rs

/-- Set `synced_to_sheets := true` on the first record with key `(uid, d)`:
this is `_sync_shift_to_sheets` mutating the just-saved ORM object
(`shift.synced_to_sheets = True; session.commit()`). -/
def setSyncedFirst (uid : Nat) (d : Date) : List Shift → List Shift
  | [] => []
  | r :: rs =>
    if r.user_id = uid ∧ r.shift_date = d then
      { r with synced_to_sheets := true } :: rs
    else r :: setSyncedFirst uid d rs

/-- `ShiftStorage._sync_shift_to_sheets`: looks up the user by id (returning
with the flag untouched if absent), then calls
`sheets_client.update_shift`; `mirror` is that call's outcome. On a raised
error the `except` block only logs, leaving the record unsynced; on normal
return the record is marked synced. Returns the updated table and the (still
session-attached, hence possibly mutated) shift object. -/
def sync_shift_to_sheets (users : List UserRec) (mirror : Except String Unit)
    (db : List Shift) (rec : Shift) : List Shift × Shift :=
  match users.find? (fun u => decide (u.id = rec.user_id)) with
  | none => (db, rec)
  | some _ =>
    match mirror with
    | .error _ => (db, rec)
    | .ok _ =>
      (setSyncedFirst rec.user_id rec.shift_date db,
       { rec with synced_to_sheets := true })

/-- `ShiftStorage.save_shift`: upsert by `(user_id, shift_date)` with
`synced_to_sheets = False`, then, if `syncToSheets`, hand the record to
`_sync_shift_to_sheets`. Returns the new table and the returned shift. -/
def save_shift (users : List UserRec) (mirror : Except String Unit) (db : List Shift)
    (uid : Nat) (d : Date) (s1 s2 n : Option String) (src : String)
    (syncToSheets : Bool) : List Shift × Shift :=
  let rec0 := mkShift uid d s1 s2 n src
  let db1 := upsertFirst uid d rec0 db
  if syncToSheets then sync_shift_to_sheets users mirror db1 rec0
  else (db1, rec0)

/-- `ShiftStorage.get_shift_by_date`: first record matching the key. -/
def get_shift_by_date (db : List Shift) (uid : Nat) (d : Date) : Option Shift :=
  db.find? (fun r => decide (r.user_id = uid ∧ r.shift_date = d))

/-- Number of stored records with key `(uid, d)`. -/
def keyedCount (uid : Nat) (d : Date) (db : List Shift) : Nat :=
  (db.filter (fun r => decide (r.user_id = uid ∧ r.shift_date = d))).length

theorem keyedCount_nil (uid : Nat) (d : Date) : keyedCount uid d [] = 0 := rfl

theorem keyedCount_cons (uid : Nat) (d : Date) (r : Shift) (rs : List Shift) :
    keyedCount uid d (r :: rs) =
      (if r.user_id = uid ∧ r.shift_date = d then 1 else 0) + keyedCount uid d rs := by
  by_cases h : r.user_id = uid ∧ r.shift_date = d <;>
    simp [keyedCount, List.filter_cons, h, Nat.add_comm]

theorem keyedCount_upsertFirst (uid : Nat) (d : Date) (s1 s2 n : Option String)
    (src : String) (db : List Shift) :
    keyedCount uid d (upsertFirst uid d (mkShift uid d s1 s2 n src) db) =
      max (keyedCount uid d db) 1 := by
  induction db with
  | nil => simp [upsertFirst, keyedCount_cons, keyedCount_nil, mkShift]
  | cons r rs ih =>
    by_cases h : r.user_id = uid ∧ r.shift_date = d
    · simp [upsertFirst, h, keyedCount_cons, mkShift]
    · simp [upsertFirst, h, keyedCount_cons, ih]

theorem keyedCount_setSyncedFirst (uid' : Nat) (d' : Date) (uid : Nat) (d : Date)
    (db : List Shift) :
    keyedCount uid' d' (setSyncedFirst uid d db) = keyedCount uid' d' db := by
  induction db with
  | nil => rfl
  | cons r rs ih =>
    by_cases h : r.user_id = uid ∧ r.shift_date = d
    · by_cases h' : r.user_id = uid' ∧ r.shift_date = d' <;>
        simp [setSyncedFirst, h, keyedCount_cons, h']
    · simp [setSyncedFirst, h, keyedCount_cons, ih]

/-- If the table holds at most one record under the key, then after the
upsert every record under the key is the freshly written one. -/
theorem upsertFirst_unique_key (uid : Nat) (d : Date) (newRec : Shift) (db : List Shift)
    (hinv : keyedCount uid d db ≤ 1) :
    ∀ r ∈ upsertFirst uid d newRec db,
      r.user_id = uid → r.shift_date = d → r = newRec := by
  induction db with
  | nil =>
    intro r hr
    simp [upsertFirst] at hr
    simp [hr]
  | cons x xs ih =>
    by_cases h : x.user_id = uid ∧ x.shift_date = d
    · intro r hr h1 h2
      simp [upsertFirst, h] at hr
      rcases hr with hr | hr
      · simp [hr]
      · exfalso
        rw [keyedCount_cons] at hinv
        simp [h] at hinv
        have : 1 ≤ keyedCount uid d xs := by
          have : r ∈ xs.filter (fun r => decide (r.user_id = uid ∧ r.shift_date = d)) := by
            rw [List.mem_filter]
            exact ⟨hr, by simp [h1, h2]⟩
          have := List.length_pos.mpr (List.ne_nil_of_mem this)
          simpa [keyedCount] using this
        omega
    · intro r hr h1 h2
      simp [upsertFirst, h] at hr
      rcases hr with hr | hr
      · exact absurd ⟨h1, h2⟩ (hr ▸ h)
      · refine ih ?_ r hr h1 h2
        rw [keyedCount_cons] at hinv
        simp [h] at hinv
        omega

theorem mem_setSyncedFirst (uid : Nat) (d : Date) (db : List Shift) :
    ∀ r ∈ setSyncedFirst uid d db,
      r ∈ db ∨ ∃ r' ∈ db, (r'.user_id = uid ∧ r'.shift_date = d) ∧
        r = { r' with synced_to_sheets := true } := by
  induction db with
  | nil => intro r hr; simp [setSyncedFirst] at hr
  | cons x xs ih =>
    by_cases h : x.user_id = uid ∧ x.shift_date = d
    · intro r hr
      simp only [setSyncedFirst, if_pos h] at hr
      rcases List.mem_cons.mp hr with hr | hr
      · exact Or.inr ⟨x, List.mem_cons_self x xs, h, hr⟩
      · exact Or.inl (List.mem_cons_of_mem x hr)
    · intro r hr
      simp only [setSyncedFirst, if_neg h, List.mem_cons] at hr
      rcases hr with hr | hr
      · exact Or.inl (hr ▸ List.mem_cons_self x xs)
      · rcases ih r hr with h1 | ⟨r', hr', hk, he⟩
        · exact Or.inl (List.mem_cons_of_mem x h1)
        · exact Or.inr ⟨r', List.mem_cons_of_mem x hr', hk, he⟩

theorem mem_upsertFirst (uid : Nat) (d : Date) (newRec : Shift) (db : List Shift) :
    ∀ r ∈ upsertFirst uid d newRec db, r = newRec ∨ r ∈ db := by
  induction db with
  | nil => intro r hr; simp [upsertFirst] at hr; exact Or.inl hr
  | cons x xs ih =>
    by_cases h : x.user_id = uid ∧ x.shift_date = d
    · intro r hr
      simp [upsertFirst, h] at hr
      rcases hr with hr | hr
      · exact Or.inl hr
      · exact Or.inr (List.mem_cons_of_mem x hr)
    · intro r hr
      simp [upsertFirst, h] at hr
      rcases hr with hr | hr
      · exact Or.inr (hr ▸ List.mem_cons_self x xs)
      · rcases ih r hr with h1 | h1
        · exact Or.inl h1
        · exact Or.inr (List.mem_cons_of_mem x h1)

/-- The first key match after an upsert of that key is the new record. -/
theorem find?_upsertFirst (uid : Nat) (d : Date) (newRec : Shift) (db : List Shift)
    (hkey : newRec.user_id = uid ∧ newRec.shift_date = d) :
    (upsertFirst uid d newRec db).find?
        (fun r => decide (r.user_id = uid ∧ r.shift_date = d)) = some newRec := by
  induction db with
  | nil => simp [upsertFirst, List.find?, hkey.1, hkey.2]
  | cons x xs ih =>
    by_cases h : x.user_id = uid ∧ x.shift_date = d
    · simp [upsertFirst, h, List.find?, hkey.1, hkey.2]
    · simp only [upsertFirst, if_neg h]
      rw [List.find?_cons_of_neg _ (by simp [h])]
      exact ih

theorem sync_shift_to_sheets_error (users : List UserRec) (e : String)
    (db : List Shift) (rec : Shift) :
    sync_shift_to_sheets users (.error e) db rec = (db, rec) := by
  rcases hfind : users.find? (fun u => decide (u.id = rec.user_id)) with _ | u <;>
    simp [sync_shift_to_sheets, hfind]

theorem keyedCount_sync_shift_to_sheets (uid' : Nat) (d' : Date) (users : List UserRec)
    (mirror : Except String Unit) (db : List Shift) (rec : Shift) :
    keyedCount uid' d' (sync_shift_to_sheets users mirror db rec).1 =
      keyedCount uid' d' db := by
  rcases hfind : users.find? (fun u => decide (u.id = rec.user_id)) with _ | u <;>
    rcases mirror with e | x <;>
      simp [sync_shift_to_sheets, hfind, keyedCount_setSyncedFirst]

theorem mem_sync_shift_to_sheets (users : List UserRec) (mirror : Except String Unit)
    (db : List Shift) (rec : Shift) :
    ∀ r ∈ (sync_shift_to_sheets users mirror db rec).1,
      r ∈ db ∨ ∃ r' ∈ db, (r'.user_id = rec.user_id ∧ r'.shift_date = rec.shift_date) ∧
        r = { r' with synced_to_sheets := true } := by
  rcases hfind : users.find? (fun u => decide (u.id = rec.user_id)) with _ | u <;>
    rcases mirror with e | x <;>
      simp only [sync_shift_to_sheets, hfind]
  · intro r hr; exact Or.inl hr
  · intro r hr; exact Or.inl hr
  · intro r hr; exact Or.inl hr
  · exact mem_setSyncedFirst rec.user_id rec.shift_date db

theorem keyedCount_save_shift (users : List UserRec) (mirror : Except String Unit)
    (db : List Shift) (uid : Nat) (d : Date) (s1 s2 n : Option String) (src : String)
    (b : Bool) :
    keyedCount uid d (save_shift users mirror db uid d s1 s2 n src b).1 =
      max (keyedCount uid d db) 1 := by
  cases b
  · simpa [save_shift] using keyedCount_upsertFirst uid d s1 s2 n src db
  · simp only [save_shift, if_pos]
    rw [keyedCount_sync_shift_to_sheets]
    exact keyedCount_upsertFirst uid d s1 s2 n src db

/-- Each record under the key after a `save_shift` on a table holding at most
one record under that key is the freshly written record, up to the sync flag
possibly having been confirmed. -/
theorem save_shift_unique_key (users : List UserRec) (mirror : Except String Unit)
    (db : List Shift) (uid : Nat) (d : Date) (s1 s2 n : Option String) (src : String)
    (b : Bool) (hinv : keyedCount uid d db ≤ 1) :
    ∀ r ∈ (save_shift users mirror db uid d s1 s2 n src b).1,
      r.user_id = uid → r.shift_date = d →
        r = mkShift uid d s1 s2 n src ∨
        r = { mkShift uid d s1 s2 n src with synced_to_sheets := true } := by
  cases b
  · intro r hr h1 h2
    simp only [save_shift, if_neg] at hr
    exact Or.inl (upsertFirst_unique_key uid d _ db hinv r hr h1 h2)
  · intro r hr h1 h2
    simp only [save_shift, if_pos] at hr
    rcases mem_sync_shift_to_sheets users mirror _ _ r hr with hm | ⟨r', hr', hk, he⟩
    · exact Or.inl (upsertFirst_unique_key uid d _ db hinv r hm h1 h2)
    · have hr'eq : r' = mkShift uid d s1 s2 n src :=
        upsertFirst_unique_key uid d _ db hinv r' hr' hk.1 hk.2
      exact Or.inr (by rw [he, hr'eq])

/-- C2. For every owner and date, upserting twice for the same `(owner, date)`
key with different slot values leaves exactly one stored record under that
key, and that record carries the second call's slot values, notes and
provenance; the second `save_shift` updates in place and never creates a
second row. Hypothesis: the table initially holds at most one record under
the key (the upsert invariant the storage maintains). -/
theorem save_shift_twice_upsert (users : List UserRec)
    (mirror1 mirror2 : Except String Unit) (db : List Shift) (uid : Nat) (d : Date)
    (s1 s2 n : Option String) (src : String) (b1 b2 : Bool)
    (s1' s2' n' : Option String) (src' : String)
    (hinv : keyedCount uid d db ≤ 1) :
    keyedCount uid d
        (save_shift users mirror2 (save_shift users mirror1 db uid d s1 s2 n src b1).1
          uid d s1' s2' n' src' b2).1 = 1 ∧
    ∀ r ∈ (save_shift users mirror2 (save_shift users mirror1 db uid d s1 s2 n src b1).1
        uid d s1' s2' n' src' b2).1,
      r.user_id = uid → r.shift_date = d →
        r.slot_1 = s1' ∧ r.slot_2 = s2' ∧ r.notes = n' ∧ r.source = src' := by
  have h1 : keyedCount uid d (save_shift users mirror1 db uid d s1 s2 n src b1).1 = 1 := by
    rw [keyedCount_save_shift]
    omega
  constructor
  · rw [keyedCount_save_shift, h1]
    exact max_self 1
  · intro r hr ha hb
    rcases save_shift_unique_key users mirror2 _ uid d s1' s2' n' src' b2
        (by rw [h1]) r hr ha hb with he | he <;> simp [he, mkShift]

/-- Witness for C2 at a concrete table: one prior record for the key, two
upserts, the second with new slots and provenance. -/
theorem save_shift_twice_upsert_witness :
    keyedCount 1 ⟨2024, 3, 1⟩
        [⟨1, ⟨2024, 3, 1⟩, some "06:00", none, none, "manual", true⟩] ≤ 1 ∧
    (keyedCount 1 ⟨2024, 3, 1⟩
        (save_shift [] (.ok ())
          (save_shift [] (.ok ())
            [⟨1, ⟨2024, 3, 1⟩, some "06:00", none, none, "manual", true⟩]
            1 ⟨2024, 3, 1⟩ (some "08:00-16:00") none none "ocr" true).1
          1 ⟨2024, 3, 1⟩ (some "14:00-22:00") (some "23:00") (some "swap") "manual" true).1 = 1 ∧
      ∀ r ∈ (save_shift [] (.ok ())
          (save_shift [] (.ok ())
            [⟨1, ⟨2024, 3, 1⟩, some "06:00", none, none, "manual", true⟩]
            1 ⟨2024, 3, 1⟩ (some "08:00-16:00") none none "ocr" true).1
          1 ⟨2024, 3, 1⟩ (some "14:00-22:00") (some "23:00") (some "swap") "manual" true).1,
        r.user_id = 1 → r.shift_date = ⟨2024, 3, 1⟩ →
          r.slot_1 = some "14:00-22:00" ∧ r.slot_2 = some "23:00" ∧
          r.notes = some "swap" ∧ r.source = "manual") :=
  ⟨by decide,
   save_shift_twice_upsert [] (.ok ()) (.ok ())
     [⟨1, ⟨2024, 3, 1⟩, some "06:00", none, none, "manual", true⟩]
     1 ⟨2024, 3, 1⟩ (some "08:00-16:00") none none "ocr" true true
     (some "14:00-22:00") (some "23:00") (some "swap") "manual" (by decide)⟩

/-- C4. When the mirror push raises, the local write still succeeds: the
caller of `save_shift` receives the shift (the embedding is a total
function, mirroring the `except` block in `_sync_shift_to_sheets` that only
logs), the record is retrievable afterwards with the new values, and its
sync-state is false. -/
theorem mirror_failure_preserves_write (e : String) (users : List UserRec)
    (db : List Shift) (uid : Nat) (d : Date) (s1 s2 n : Option String) (src : String) :
    (save_shift users (.error e) db uid d s1 s2 n src true).2 =
        mkShift uid d s1 s2 n src ∧
    get_shift_by_date (save_shift users (.error e) db uid d s1 s2 n src true).1 uid d =
        some (mkShift uid d s1 s2 n src) ∧
    (mkShift uid d s1 s2 n src).synced_to_sheets = false := by
  refine ⟨?_, ?_, rfl⟩
  · simp [save_shift, sync_shift_to_sheets_error]
  · simp only [save_shift, if_pos, sync_shift_to_sheets_error]
    exact find?_upsertFirst uid d _ db ⟨rfl, rfl⟩

/-- Leap-year rule of the proleptic Gregorian calendar used by `datetime`. -/
def isLeapYear (y : Nat) : Bool := (y % 4 == 0 && y % 100 != 0) || (y % 400 == 0)

/-- Days in a month, as validated by `datetime.strptime`. -/
def daysInMonth (y m : Nat) : Nat :=
  if m = 2 then (if isLeapYear y then 29 else 28)
  else if m = 4 ∨ m = 6 ∨ m = 9 ∨ m = 11 then 30
  else 31

/-- Split a character list at every occurrence of `c`, the behaviour of
Python `str.split` with a one-character separator. -/
def splitOnChar (c : Char) : List Char → List (List Char)
  | [] => [[]]
  | x :: xs =>
    if x = c then [] :: splitOnChar c xs
    else
      match splitOnChar c xs with
      | [] => [[x]]
      | g :: gs => (x :: g) :: gs

/-- ASCII decimal digit test. -/
def isDigitChar (ch : Char) : Bool := 48 ≤ ch.toNat && ch.toNat ≤ 57

/-- Decimal value of a digit group. -/
def digitsVal (l : List Char) : Nat :=
  l.foldl (fun acc ch => acc * 10 + (ch.toNat - 48)) 0

/-- CPython's `%Y` group: exactly four digits. -/
def parseYearGroup (l : List Char) : Option Nat :=
  if l.length = 4 ∧ l.all isDigitChar then some (digitsVal l) else none

/-- CPython's `%m` group: one or two digits. -/
def parseMonthGroup (l : List Char) : Option Nat :=
  if l ≠ [] ∧ l.length ≤ 2 ∧ l.all isDigitChar then some (digitsVal l) else none

/-- CPython's `%d` group: one or two digits, or the space-padded
alternative — a space followed by a single nonzero digit. -/
def parseDayGroup (l : List Char) : Option Nat :=
  match l with
  | [' ', c] => if 49 ≤ c.toNat ∧ c.toNat ≤ 57 then some (c.toNat - 48) else none
  | _ => if l ≠ [] ∧ l.length ≤ 2 ∧ l.all isDigitChar then some (digitsVal l) else none

/-- Model of `datetime.strptime(s, "%Y-%m-%d").date()`, following CPython's
TimeRE patterns: the separators are literal dashes (no group can contain
one, so splitting at every dash is equivalent to the anchored regex),
`%Y` is exactly four digits, `%m` one or two digits valued 1-12, `%d` one
or two digits or a space-padded single nonzero digit, valued within the
month's length; the `datetime` constructor further requires year at least
1. Anything else raises `ValueError`, modelled as `none`. -/
def parseDate (s : String) : Option Date :=
  match splitOnChar '-' s.data with
  | [ys, ms, ds] =>
    match parseYearGroup ys, parseMonthGroup ms, parseDayGroup ds with
    | some y, some m, some d =>
      if 1 ≤ y ∧ 1 ≤ m ∧ m ≤ 12 ∧ 1 ≤ d ∧ d ≤ daysInMonth y m then
        some ⟨y, m, d⟩
      else none
    | _, _, _ => none
  | _ => none

/-- The `date` entry of a bulk item: the Python dict may hold a string
(parsed with `strptime`) or an already-parsed date object; an absent (or
null) date makes the item's save raise, which the per-item handler catches. -/
inductive DateField where
  | str (s : String)
  | val (d : Date)
deriving DecidableEq

/-- One element of `shifts_data` in `bulk_save_shifts`. -/
structure ShiftData where
  date : Option DateField
  slot_1 : Option String
  slot_2 : Option String
  notes : Option String
deriving DecidableEq

/-- The date an item yields, `none` when handling the item raises. -/
def itemDate (it : ShiftData) : Option Date :=
  match it.date with
  | some (.str s) => parseDate s
  | some (.val d) => some d
  | none => none

/-- `ShiftStorage.bulk_save_shifts`: per item, resolve the date and call
`save_shift`; a per-item failure is logged and skipped (the `except` inside
the loop); returns the successfully saved shifts in order, and the table. -/
def bulk_save_shifts (users : List UserRec) (mirror : Except String Unit)
    (uid : Nat) (src : String) (syncToSheets : Bool) :
    List ShiftData → List Shift → List Shift × List Shift
  | [], db => ([], db)
  | it :: rest, db =>
    match itemDate it with
    | none => bulk_save_shifts users mirror uid src syncToSheets rest db
    | some d =>
      let p := save_shift users mirror db uid d it.slot_1 it.slot_2 it.notes src syncToSheets
      let q := bulk_save_shifts users mirror uid src syncToSheets rest p.1
      (p.2 :: q.1, q.2)

/-- Remove the first record under the key (the ORM `session.delete`). -/
def removeFirst (uid : Nat) (d : Date) : List Shift → List Shift
  | [] => []
  | r :: rs => if r.user_id = uid ∧ r.shift_date = d then rs else r :: removeFirst uid d rs

/-- `ShiftStorage.delete_shift`. -/
def delete_shift (db : List Shift) (uid : Nat) (d : Date) : Bool × List Shift :=
  match db.find? (fun r => decide (r.user_id = uid ∧ r.shift_date = d)) with
  | some _ => (true, removeFirst uid d db)
  | none => (false, db)

/-- The row loop of `sync_from_sheets`: skip rows with fewer than 4 columns,
rows naming another user in column 2, and rows whose date fails to parse;
otherwise `save_shift` with provenance `sheets` and `sync_to_sheets=False`
(so the mirror is never consulted; the `.ok ()` argument is inert), counting
the saved rows. -/
def processRows (users : List UserRec) (uname : String) (uid : Nat) :
    List (List String) → List Shift → Nat × List Shift
  | [], db => (0, db)
  | row :: rest, db =>
    if row.length < 4 then processRows users uname uid rest db
    else if 2 < row.length ∧ row.get? 2 ≠ some uname then
      processRows users uname uid rest db
    else
      match parseDate (row.getD 0 "") with
      | none => processRows users uname uid rest db
      | some d =>
        let db' := (save_shift users (.ok ()) db uid d (row.get? 3) (row.get? 4)
            (row.get? 5) "sheets" false).1
        let q := processRows users uname uid rest db'
        (q.1 + 1, q.2)

/-- `ShiftStorage.sync_from_sheets`: look up the user, take the sheet data
(here the already-fetched `sheetData`), return 0 on a missing user or empty
data, else process every row after the header. Returns the synced count and
the table. -/
def sync_from_sheets (users : List UserRec) (db : List Shift) (uid : Nat)
    (sheetData : List (List String)) : Nat × List Shift :=
  match users.find? (fun u => decide (u.id = uid)) with
  | none => (0, db)
  | some user =>
    if sheetData = [] then (0, db)
    else processRows users user.name uid (sheetData.drop 1) db

/-- The storage-layer operations that touch the shifts table. -/
inductive Op where
  | save (uid : Nat) (d : Date) (s1 s2 n : Option String) (src : String) (syncFlag : Bool)
  | bulk (uid : Nat) (items : List ShiftData) (src : String) (syncFlag : Bool)
  | del (uid : Nat) (d : Date)
  | pull (uid : Nat) (sheetData : List (List String))

/-- Effect of an operation on the shifts table. -/
def applyOp (users : List UserRec) (mirror : Except String Unit) (db : List Shift) :
    Op → List Shift
  | .save uid d s1 s2 n src b => (save_shift users mirror db uid d s1 s2 n src b).1
  | .bulk uid items src b => (bulk_save_shifts users mirror uid src b items db).2
  | .del uid d => (delete_shift db uid d).2
  | .pull uid sd => (sync_from_sheets users db uid sd).2

/-- The operation confirmed a successful mirror push for record `r`: a save
(or one of a bulk's saves) with `sync_to_sheets` requested, an existing
user, and a mirror update that returned normally — the push-confirmation
step of `_sync_shift_to_sheets`. -/
def successfulPushAt (users : List UserRec) (mirror : Except String Unit)
    (op : Op) (r : Shift) : Prop :=
  mirror = .ok () ∧ (∃ u ∈ users, u.id = r.user_id) ∧
  match op with
  | .save uid d _ _ _ _ b => b = true ∧ r.user_id = uid ∧ r.shift_date = d
  | .bulk uid _ _ b => b = true ∧ r.user_id = uid
  | _ => False

theorem save_shift_synced_mem (users : List UserRec) (mirror : Except String Unit)
    (db : List Shift) (uid : Nat) (d : Date) (s1 s2 n : Option String) (src : String)
    (b : Bool) :
    ∀ r ∈ (save_shift users mirror db uid d s1 s2 n src b).1,
      r.synced_to_sheets = true →
        r ∈ db ∨ (mirror = .ok () ∧ (∃ u ∈ users, u.id = uid) ∧ b = true ∧
          r.user_id = uid ∧ r.shift_date = d) := by
  cases b
  · intro r hr ht
    simp only [save_shift, Bool.false_eq_true, if_false] at hr
    rcases mem_upsertFirst uid d _ db r hr with he | hm
    · rw [he] at ht; exact absurd ht (by simp [mkShift])
    · exact Or.inl hm
  · intro r hr ht
    simp only [save_shift, if_true] at hr
    rcases hfind : users.find? (fun u => decide (u.id = (mkShift uid d s1 s2 n src).user_id))
        with _ | u <;> rcases hm : mirror with e | x
    all_goals simp only [sync_shift_to_sheets, hfind, hm] at hr
    · rcases mem_upsertFirst uid d _ db r hr with he | hmem
      · rw [he] at ht; exact absurd ht (by simp [mkShift])
      · exact Or.inl hmem
    · rcases mem_upsertFirst uid d _ db r hr with he | hmem
      · rw [he] at ht; exact absurd ht (by simp [mkShift])
      · exact Or.inl hmem
    · rcases mem_upsertFirst uid d _ db r hr with he | hmem
      · rw [he] at ht; exact absurd ht (by simp [mkShift])
      · exact Or.inl hmem
    · rcases mem_setSyncedFirst _ _ _ r hr with hmem | ⟨r', hr', hk, he⟩
      · rcases mem_upsertFirst uid d _ db r hmem with he | hmem'
        · rw [he] at ht; exact absurd ht (by simp [mkShift])
        · exact Or.inl hmem'
      · refine Or.inr ⟨rfl, ?_, rfl, ?_, ?_⟩
        · refine ⟨u, List.mem_of_find?_eq_some hfind, ?_⟩
          have h5 := List.find?_some hfind
          simp only [decide_eq_true_eq] at h5
          exact h5
        · rw [he]; exact hk.1
        · rw [he]; exact hk.2

theorem bulk_synced_mem (users : List UserRec) (mirror : Except String Unit)
    (uid : Nat) (src : String) (b : Bool) (items : List ShiftData) :
    ∀ db, ∀ r ∈ (bulk_save_shifts users mirror uid src b items db).2,
      r.synced_to_sheets = true →
        r ∈ db ∨ (mirror = .ok () ∧ (∃ u ∈ users, u.id = uid) ∧ b = true ∧
          r.user_id = uid) := by
  induction items with
  | nil => intro db r hr _; exact Or.inl hr
  | cons it rest ih =>
    intro db r hr ht
    rcases hd : itemDate it with _ | d
    · rw [bulk_save_shifts] at hr
      rw [hd] at hr
      exact ih db r hr ht
    · rw [bulk_save_shifts] at hr
      rw [hd] at hr
      simp only at hr
      rcases ih _ r hr ht with hm | hp
      · rcases save_shift_synced_mem users mirror db uid d it.slot_1 it.slot_2 it.notes
            src b r hm ht with hm' | ⟨ho, hu, hb, h1, _⟩
        · exact Or.inl hm'
        · exact Or.inr ⟨ho, hu, hb, h1⟩
      · exact Or.inr hp

theorem processRows_synced_mem (users : List UserRec) (uname : String) (uid : Nat)
    (rows : List (List String)) :
    ∀ db, ∀ r ∈ (processRows users uname uid rows db).2,
      r.synced_to_sheets = true → r ∈ db := by
  induction rows with
  | nil => intro db r hr _; exact hr
  | cons row rest ih =>
    intro db r hr ht
    by_cases h1 : row.length < 4
    · rw [processRows, if_pos h1] at hr
      exact ih db r hr ht
    · by_cases h2 : 2 < row.length ∧ row.get? 2 ≠ some uname
      · rw [processRows, if_neg h1, if_pos h2] at hr
        exact ih db r hr ht
      · rcases hp : parseDate (row.getD 0 "") with _ | d
        · rw [processRows, if_neg h1, if_neg h2] at hr
          rw [hp] at hr
          exact ih db r hr ht
        · rw [processRows, if_neg h1, if_neg h2] at hr
          rw [hp] at hr
          simp only at hr
          have hmem := ih _ r hr ht
          rcases save_shift_synced_mem users (.ok ()) db uid d (row.get? 3) (row.get? 4)
              (row.get? 5) "sheets" false r hmem ht with hm | ⟨_, _, hb, _⟩
          · exact hm
          · exact absurd hb (by simp)

theorem removeFirst_subset (uid : Nat) (d : Date) (db : List Shift) :
    ∀ r ∈ removeFirst uid d db, r ∈ db := by
  induction db with
  | nil => intro r hr; exact hr
  | cons x xs ih =>
    by_cases h : x.user_id = uid ∧ x.shift_date = d
    · intro r hr
      rw [removeFirst, if_pos h] at hr
      exact List.mem_cons_of_mem x hr
    · intro r hr
      rw [removeFirst, if_neg h] at hr
      rcases List.mem_cons.mp hr with he | hm
      · exact he ▸ List.mem_cons_self x xs
      · exact List.mem_cons_of_mem x (ih r hm)

/-- C3. Every local mutation writes sync-state false — the record produced by
the upsert step of `save_shift` always has `synced_to_sheets = false` — and
over all storage operations the only way a record's sync-state becomes true
is the push-confirmation step after a successful mirror update: any
true-flagged record after an operation was already stored before it, or the
operation was a save (or bulk save) whose mirror push succeeded for that
record's owner. -/
theorem sync_true_only_from_push :
    (∀ (uid : Nat) (d : Date) (s1 s2 n : Option String) (src : String),
        (mkShift uid d s1 s2 n src).synced_to_sheets = false) ∧
    (∀ (users : List UserRec) (mirror : Except String Unit) (db : List Shift) (op : Op),
        ∀ r ∈ applyOp users mirror db op,
          r.synced_to_sheets = true → r ∈ db ∨ successfulPushAt users mirror op r) := by
  constructor
  · intro uid d s1 s2 n src; rfl
  · intro users mirror db op r hr ht
    cases op with
    | save uid d s1 s2 n src b =>
      rcases save_shift_synced_mem users mirror db uid d s1 s2 n src b r hr ht
          with hm | ⟨ho, ⟨u, hu, hui⟩, hb, h1, h2⟩
      · exact Or.inl hm
      · exact Or.inr ⟨ho, ⟨u, hu, by rw [h1]; exact hui⟩, hb, h1, h2⟩
    | bulk uid items src b =>
      rcases bulk_synced_mem users mirror uid src b items db r hr ht
          with hm | ⟨ho, ⟨u, hu, hui⟩, hb, h1⟩
      · exact Or.inl hm
      · exact Or.inr ⟨ho, ⟨u, hu, by rw [h1]; exact hui⟩, hb, h1⟩
    | del uid d =>
      simp only [applyOp, delete_shift] at hr
      rcases hf : db.find? (fun r => decide (r.user_id = uid ∧ r.shift_date = d))
          with _ | x
      · rw [hf] at hr; exact Or.inl hr
      · rw [hf] at hr; exact Or.inl (removeFirst_subset uid d db r hr)
    | pull uid sd =>
      simp only [applyOp, sync_from_sheets] at hr
      rcases hf : users.find? (fun u => decide (u.id = uid)) with _ | user
      · rw [hf] at hr; exact Or.inl hr
      · rw [hf] at hr
        simp only at hr
        by_cases hsd : sd = []
        · rw [if_pos hsd] at hr; exact Or.inl hr
        · rw [if_neg hsd] at hr
          exact Or.inl (processRows_synced_mem users user.name uid (sd.drop 1) db r hr ht)

/-- Witness for C3 at a concrete table: a delete of another key leaves a
true-flagged record in place, and the theorem attributes it to the prior
state. -/
theorem sync_true_only_from_push_witness :
    (⟨1, ⟨2024, 3, 1⟩, some "08:00", none, none, "ocr", true⟩ : Shift) ∈
        applyOp [] (.ok ())
          [⟨1, ⟨2024, 3, 1⟩, some "08:00", none, none, "ocr", true⟩]
          (.del 2 ⟨2024, 3, 2⟩) ∧
    ((⟨1, ⟨2024, 3, 1⟩, some "08:00", none, none, "ocr", true⟩ : Shift) ∈
        [(⟨1, ⟨2024, 3, 1⟩, some "08:00", none, none, "ocr", true⟩ : Shift)] ∨
      successfulPushAt [] (.ok ()) (.del 2 ⟨2024, 3, 2⟩)
        ⟨1, ⟨2024, 3, 1⟩, some "08:00", none, none, "ocr", true⟩) :=
  ⟨by decide,
   sync_true_only_from_push.2 [] (.ok ())
     [⟨1, ⟨2024, 3, 1⟩, some "08:00", none, none, "ocr", true⟩]
     (.del 2 ⟨2024, 3, 2⟩) _ (by decide) (by decide)⟩

/-- The shift object `save_shift` returns is determined by the call's
arguments alone, independent of the table contents. -/
theorem save_shift_snd_ignores_db (users : List UserRec) (mirror : Except String Unit)
    (db db' : List Shift) (uid : Nat) (d : Date) (s1 s2 n : Option String)
    (src : String) (b : Bool) :
    (save_shift users mirror db uid d s1 s2 n src b).2 =
      (save_shift users mirror db' uid d s1 s2 n src b).2 := by
  cases b
  · rfl
  · simp only [save_shift, if_true]
    rcases hfind : users.find? (fun u => decide (u.id = (mkShift uid d s1 s2 n src).user_id))
        with _ | u <;> rcases mirror with e | x <;>
      simp [sync_shift_to_sheets, hfind]

/-- C7. For every bulk batch, a per-item failure (an unresolvable date) is
skipped without aborting the batch: the returned list is exactly the
per-item `save_shift` results of the items whose date resolves, in order,
with failed items absent, not defaulted. In particular, a 5-item batch whose
third item has an unparsable date returns exactly 4 saved records with the
third item absent. -/
theorem bulk_save_partial_failure :
    (∀ (users : List UserRec) (mirror : Except String Unit) (uid : Nat) (src : String)
        (b : Bool) (items : List ShiftData) (db : List Shift),
      (bulk_save_shifts users mirror uid src b items db).1 =
        items.filterMap (fun it => (itemDate it).map (fun d =>
          (save_shift users mirror [] uid d it.slot_1 it.slot_2 it.notes src b).2))) ∧
    ((bulk_save_shifts [] (.ok ()) 7 "ocr" false
        [⟨some (.str "2024-03-01"), some "08:00", none, none⟩,
         ⟨some (.str "2024-03-02"), some "09:00", none, none⟩,
         ⟨some (.str "03/05/2024"), some "10:00", none, none⟩,
         ⟨some (.str "2024-03-04"), none, some "14:00", none⟩,
         ⟨some (.str "2024-03-05"), some "11:00", none, some "swap"⟩] []).1 =
      [⟨7, ⟨2024, 3, 1⟩, some "08:00", none, none, "ocr", false⟩,
       ⟨7, ⟨2024, 3, 2⟩, some "09:00", none, none, "ocr", false⟩,
       ⟨7, ⟨2024, 3, 4⟩, none, some "14:00", none, "ocr", false⟩,
       ⟨7, ⟨2024, 3, 5⟩, some "11:00", none, some "swap", "ocr", false⟩] ∧
     (bulk_save_shifts [] (.ok ()) 7 "ocr" false
        [⟨some (.str "2024-03-01"), some "08:00", none, none⟩,
         ⟨some (.str "2024-03-02"), some "09:00", none, none⟩,
         ⟨some (.str "03/05/2024"), some "10:00", none, none⟩,
         ⟨some (.str "2024-03-04"), none, some "14:00", none⟩,
         ⟨some (.str "2024-03-05"), some "11:00", none, some "swap"⟩] []).1.length = 4) := by
  constructor
  · intro users mirror uid src b items
    induction items with
    | nil => intro db; rfl
    | cons it rest ih =>
      intro db
      rcases hd : itemDate it with _ | d
      · rw [bulk_save_shifts]
        rw [hd]
        simp only [List.filterMap_cons, hd, Option.map_none]
        exact ih db
      · rw [bulk_save_shifts]
        rw [hd]
        simp only [List.filterMap_cons, hd, Option.map_some]
        exact congrArg₂ List.cons
          (save_shift_snd_ignores_db users mirror db [] uid d it.slot_1 it.slot_2 it.notes src b)
          (ih _)
  · constructor <;> decide

/-- Number of stored records owned by `uid`. -/
def uidCount (uid : Nat) (db : List Shift) : Nat :=
  (db.filter (fun r => decide (r.user_id = uid))).length

theorem uidCount_append (uid : Nat) (a b : List Shift) :
    uidCount uid (a ++ b) = uidCount uid a + uidCount uid b := by
  simp [uidCount, List.filter_append]

theorem keyedCount_append (uid : Nat) (d : Date) (a b : List Shift) :
    keyedCount uid d (a ++ b) = keyedCount uid d a + keyedCount uid d b := by
  simp [keyedCount, List.filter_append]

theorem keyedCount_eq_zero (uid : Nat) (d : Date) (db : List Shift)
    (h : ∀ r ∈ db, r.user_id ≠ uid) : keyedCount uid d db = 0 := by
  induction db with
  | nil => rfl
  | cons x xs ih =>
    rw [keyedCount_cons]
    rw [if_neg (fun hc => h x (List.mem_cons_self x xs) hc.1)]
    rw [ih (fun r hr => h r (List.mem_cons_of_mem x hr))]

theorem uidCount_eq_zero (uid : Nat) (db : List Shift)
    (h : ∀ r ∈ db, r.user_id ≠ uid) : uidCount uid db = 0 := by
  induction db with
  | nil => rfl
  | cons x xs ih =>
    have hx : ¬ x.user_id = uid := h x (List.mem_cons_self x xs)
    simp only [uidCount, List.filter_cons]
    rw [if_neg (by simpa using hx)]
    exact ih (fun r hr => h r (List.mem_cons_of_mem x hr))

/-- An upsert whose key is absent appends the new record. -/
theorem upsertFirst_not_found (uid : Nat) (d : Date) (rec : Shift) (db : List Shift)
    (h : keyedCount uid d db = 0) :
    upsertFirst uid d rec db = db ++ [rec] := by
  induction db with
  | nil => rfl
  | cons x xs ih =>
    rw [keyedCount_cons] at h
    by_cases hx : x.user_id = uid ∧ x.shift_date = d
    · rw [if_pos hx] at h; omega
    · rw [if_neg hx] at h
      rw [upsertFirst, if_neg hx, ih (by omega)]
      rfl

/-- Invariant-carrying induction for the pull loop over well-formed rows:
each row passes the guards, appends one record for the owner with provenance
`sheets` and sync-state false, and the count equals the number of rows. -/
theorem processRows_wf (users : List UserRec) (uname : String) (uid : Nat)
    (rows : List (List String)) :
    ∀ db : List Shift,
    (∀ row ∈ rows, 4 ≤ row.length ∧ row.get? 2 = some uname ∧
        (parseDate (row.getD 0 "")).isSome) →
    (∀ row ∈ rows, ∀ dd, parseDate (row.getD 0 "") = some dd →
        keyedCount uid dd db = 0) →
    rows.Pairwise (fun a b => parseDate (a.getD 0 "") ≠ parseDate (b.getD 0 "")) →
    (∀ r ∈ db, r.user_id = uid → r.source = "sheets" ∧ r.synced_to_sheets = false) →
    (processRows users uname uid rows db).1 = rows.length ∧
    uidCount uid (processRows users uname uid rows db).2 = uidCount uid db + rows.length ∧
    (∀ r ∈ (processRows users uname uid rows db).2, r.user_id = uid →
        r.source = "sheets" ∧ r.synced_to_sheets = false) := by
  induction rows with
  | nil => intro db _ _ _ hflag; exact ⟨rfl, rfl, hflag⟩
  | cons row rest ih =>
    intro db hwf h0 hpair hflag
    obtain ⟨hlen, hname, hdate⟩ := hwf row (List.mem_cons_self row rest)
    obtain ⟨d, hd⟩ := Option.isSome_iff_exists.mp hdate
    have hn4 : ¬ row.length < 4 := by omega
    have hn2 : ¬ (2 < row.length ∧ row.get? 2 ≠ some uname) := by
      rintro ⟨-, hne⟩; exact hne hname
    have hhead := (List.pairwise_cons.mp hpair).1
    have hsave : (save_shift users (.ok ()) db uid d (row.get? 3) (row.get? 4)
        (row.get? 5) "sheets" false).1 =
        db ++ [mkShift uid d (row.get? 3) (row.get? 4) (row.get? 5) "sheets"] := by
      simp only [save_shift, Bool.false_eq_true, if_false]
      exact upsertFirst_not_found uid d _ db
        (h0 row (List.mem_cons_self row rest) d hd)
    have hstep : processRows users uname uid (row :: rest) db =
        ((processRows users uname uid rest
            (db ++ [mkShift uid d (row.get? 3) (row.get? 4) (row.get? 5) "sheets"])).1 + 1,
         (processRows users uname uid rest
            (db ++ [mkShift uid d (row.get? 3) (row.get? 4) (row.get? 5) "sheets"])).2) := by
      rw [processRows, if_neg hn4, if_neg hn2, hd]
      simp only
      rw [hsave]
    have hwf' : ∀ r2 ∈ rest, 4 ≤ r2.length ∧ r2.get? 2 = some uname ∧
        (parseDate (r2.getD 0 "")).isSome :=
      fun r2 hr2 => hwf r2 (List.mem_cons_of_mem row hr2)
    have h0' : ∀ r2 ∈ rest, ∀ dd, parseDate (r2.getD 0 "") = some dd →
        keyedCount uid dd (db ++ [mkShift uid d (row.get? 3) (row.get? 4)
          (row.get? 5) "sheets"]) = 0 := by
      intro r2 hr2 dd hdd
      have hne : d ≠ dd := fun he => hhead r2 hr2 (by rw [hd, hdd, he])
      have hz := h0 r2 (List.mem_cons_of_mem row hr2) dd hdd
      rw [keyedCount_append, hz]
      rw [keyedCount_cons, keyedCount_nil]
      simp [mkShift, hne]
    have hflag' : ∀ r ∈ db ++ [mkShift uid d (row.get? 3) (row.get? 4)
        (row.get? 5) "sheets"], r.user_id = uid →
        r.source = "sheets" ∧ r.synced_to_sheets = false := by
      intro r hr hu
      rcases List.mem_append.mp hr with hm | hm
      · exact hflag r hm hu
      · rw [List.mem_singleton.mp hm]; exact ⟨rfl, rfl⟩
    obtain ⟨ih1, ih2, ih3⟩ :=
      ih (db ++ [mkShift uid d (row.get? 3) (row.get? 4) (row.get? 5) "sheets"])
        hwf' h0' (List.pairwise_cons.mp hpair).2 hflag'
    rw [hstep]
    have h1 : uidCount uid [mkShift uid d (row.get? 3) (row.get? 4)
        (row.get? 5) "sheets"] = 1 := by
      simp [uidCount, mkShift]
    refine ⟨?_, ?_, ih3⟩
    · show (processRows users uname uid rest
          (db ++ [mkShift uid d (row.get? 3) (row.get? 4) (row.get? 5) "sheets"])).1 + 1 =
        (row :: rest).length
      rw [ih1, List.length_cons]
    · show uidCount uid (processRows users uname uid rest
          (db ++ [mkShift uid d (row.get? 3) (row.get? 4) (row.get? 5) "sheets"])).2 =
        uidCount uid db + (row :: rest).length
      rw [ih2, uidCount_append, h1, List.length_cons]
      omega

/-- C5 (amended). Pulling into an owner with zero local records from a
snapshot consisting of a header plus N well-formed rows for that owner (at
least 4 columns, the owner's name in column 2, pairwise-distinct parseable
dates) reports N synced rows and yields exactly N local records for the
owner, each with provenance `sheets` (the code's tag for a mirror pull) and
sync-state FALSE — the pull saves with `sync_to_sheets=False` and nothing
marks the pulled records synced. Malformed rows are skipped without aborting
the pull (shown by `processRows` reducing past them, exercised in the
counterexample's header row). -/
theorem pull_into_empty (users : List UserRec) (user : UserRec) (db : List Shift)
    (uid : Nat) (header : List String) (rows : List (List String))
    (hfind : users.find? (fun u => decide (u.id = uid)) = some user)
    (hdb : ∀ r ∈ db, r.user_id ≠ uid)
    (hwf : ∀ row ∈ rows, 4 ≤ row.length ∧ row.get? 2 = some user.name ∧
        (parseDate (row.getD 0 "")).isSome)
    (hpair : rows.Pairwise (fun a b => parseDate (a.getD 0 "") ≠ parseDate (b.getD 0 ""))) :
    (sync_from_sheets users db uid (header :: rows)).1 = rows.length ∧
    uidCount uid (sync_from_sheets users db uid (header :: rows)).2 = rows.length ∧
    ∀ r ∈ (sync_from_sheets users db uid (header :: rows)).2,
      r.user_id = uid → r.source = "sheets" ∧ r.synced_to_sheets = false := by
  have hsync : sync_from_sheets users db uid (header :: rows) =
      processRows users user.name uid rows db := by
    simp only [sync_from_sheets, hfind]
    rw [if_neg (List.cons_ne_nil header rows)]
    rw [List.drop_one, List.tail_cons]
  have h0 : ∀ row ∈ rows, ∀ dd, parseDate (row.getD 0 "") = some dd →
      keyedCount uid dd db = 0 :=
    fun _ _ dd _ => keyedCount_eq_zero uid dd db hdb
  have hflag : ∀ r ∈ db, r.user_id = uid → r.source = "sheets" ∧
      r.synced_to_sheets = false :=
    fun r hr hu => absurd hu (hdb r hr)
  obtain ⟨h1, h2, h3⟩ := processRows_wf users user.name uid rows db hwf h0 hpair hflag
  rw [hsync]
  exact ⟨h1, by rw [h2, uidCount_eq_zero uid db hdb]; exact Nat.zero_add _, h3⟩

/-- Counterexample to C5 as stated: one well-formed pulled row yields a local
record whose sync-state is false, not true. -/
theorem pull_sync_state_counterexample :
    (sync_from_sheets [⟨1, "Alice", "tok", true, false⟩] [] 1
        [["Data", "Giorno", "Utente", "Slot 1"],
         ["2024-03-01", "Friday", "Alice", "08:00-16:00"]]).2 =
      [⟨1, ⟨2024, 3, 1⟩, some "08:00-16:00", none, none, "sheets", false⟩] ∧
    ¬ (∀ r ∈ (sync_from_sheets [⟨1, "Alice", "tok", true, false⟩] [] 1
        [["Data", "Giorno", "Utente", "Slot 1"],
         ["2024-03-01", "Friday", "Alice", "08:00-16:00"]]).2,
      r.synced_to_sheets = true) := by decide

/-- Witness for the amended C5 at a concrete snapshot of one row. -/
theorem pull_into_empty_witness :
    (sync_from_sheets [⟨1, "Alice", "tok", true, false⟩] [] 1
        [["Data", "Giorno", "Utente", "Slot 1"],
         ["2024-03-01", "Friday", "Alice", "08:00-16:00"]]).1 = 1 ∧
    uidCount 1 (sync_from_sheets [⟨1, "Alice", "tok", true, false⟩] [] 1
        [["Data", "Giorno", "Utente", "Slot 1"],
         ["2024-03-01", "Friday", "Alice", "08:00-16:00"]]).2 = 1 ∧
    ∀ r ∈ (sync_from_sheets [⟨1, "Alice", "tok", true, false⟩] [] 1
        [["Data", "Giorno", "Utente", "Slot 1"],
         ["2024-03-01", "Friday", "Alice", "08:00-16:00"]]).2,
      r.user_id = 1 → r.source = "sheets" ∧ r.synced_to_sheets = false :=
  pull_into_empty [⟨1, "Alice", "tok", true, false⟩] ⟨1, "Alice", "tok", true, false⟩
    [] 1 ["Data", "Giorno", "Utente", "Slot 1"]
    [["2024-03-01", "Friday", "Alice", "08:00-16:00"]]
    (by decide) (by decide) (by decide)
    (List.pairwise_cons.mpr ⟨by simp, List.Pairwise.nil⟩)

/-- State of the authentication layer: the users table, the Redis user
cache (association list of `user:` entries), the blacklist, and one
availability flag for the cache backend — the code's `_initialized` guard
and its catch-all `except` handlers return identical fallbacks, so a single
flag models an uninitialized and an erroring backend alike. -/
structure AuthState where
  users : List UserRec
  cache : List (String × UserRec)
  blacklist : List String
  cacheUp : Bool
deriving DecidableEq

/-- `RedisCache.is_key_blacklisted`: false when the backend is unavailable
(fails open), else membership of the `blacklist:` entry. -/
def is_key_blacklisted (s : AuthState) (k : String) : Bool :=
  s.cacheUp && decide (k ∈ s.blacklist)

/-- `RedisCache.get_user`: none when the backend is unavailable. -/
def cacheGetUser (s : AuthState) (k : String) : Option UserRec :=
  if s.cacheUp then (s.cache.find? (fun p => decide (p.1 = k))).map (·.2) else none

/-- `RedisCache.set_user` (Redis SETEX map semantics). -/
def cacheSetUser (s : AuthState) (k : String) (u : UserRec) : AuthState :=
  if s.cacheUp then
    { s with cache := (k, u) :: s.cache.filter (fun p => decide (p.1 ≠ k)) }
  else s

/-- `RedisCache.invalidate_user`. -/
def cacheInvalidateUser (s : AuthState) (k : String) : AuthState :=
  if s.cacheUp then { s with cache := s.cache.filter (fun p => decide (p.1 ≠ k)) }
  else s

/-- `RedisCache.blacklist_key`: no-op when the backend is unavailable. -/
def blacklistKey (s : AuthState) (k : String) : AuthState :=
  if s.cacheUp then { s with blacklist := k :: s.blacklist } else s

/-- The durable-store lookup inside `get_user_by_key`: the first ACTIVE user
whose STORED `api_key` equals the presented key — a plaintext comparison
(`filter_by(api_key=api_key, is_active=True)`). -/
def dbUserLookup (users : List UserRec) (k : String) : Option UserRec :=
  users.find? (fun u => decide (u.api_key = k) && u.is_active)

/-- `user_storage.get_user_by_key`: blacklist first (unconditionally), then
the cache, then the durable store, caching a hit with a 300s TTL. Returns
the resolved user and the possibly updated state. -/
def get_user_by_key (s : AuthState) (k : String) : Option UserRec × AuthState :=
  if is_key_blacklisted s k then (none, s)
  else
    match cacheGetUser s k with
    | some u => (some u, s)
    | none =>
      match dbUserLookup s.users k with
      | some u => (some u, cacheSetUser s k u)
      | none => (none, s)

/-- The cache-aside authenticate as the SPEC words it (section 4.2): on a
cache miss the durable store is looked up BY THE ONE-WAY HASH of the token.
Stated only for comparison against `get_user_by_key`, which is what the
code has. -/
def get_user_by_key_spec (hashKey : String → String) (s : AuthState) (k : String) :
    Option UserRec × AuthState :=
  if is_key_blacklisted s k then (none, s)
  else
    match cacheGetUser s k with
    | some u => (some u, s)
    | none =>
      match dbUserLookup s.users (hashKey k) with
      | some u => (some u, cacheSetUser s k u)
      | none => (none, s)

/-- In-place ORM update of the found user's `api_key` (first id match). -/
def rotateKeyFirst (uid : Nat) (newKey : String) : List UserRec → List UserRec
  | [] => []
  | u :: us =>
    if u.id = uid then { u with api_key := newKey } :: us
    else u :: rotateKeyFirst uid newKey us

/-- In-place ORM update clearing the found user's `is_active` flag. -/
def deactivateFirst (uid : Nat) : List UserRec → List UserRec
  | [] => []
  | u :: us =>
    if u.id = uid then { u with is_active := false } :: us
    else u :: deactivateFirst uid us

/-- `user_storage.reset_user_key`: find the user, blacklist the old key,
invalidate its cache entry, then assign the freshly generated key (given
here as `newKey`, the value `generate_api_key` produced). -/
def reset_user_key (s : AuthState) (uid : Nat) (newKey : String) :
    Option String × AuthState :=
  match s.users.find? (fun u => decide (u.id = uid)) with
  | none => (none, s)
  | some u =>
    let s2 := cacheInvalidateUser (blacklistKey s u.api_key) u.api_key
    (some newKey, { s2 with users := rotateKeyFirst uid newKey s2.users })

/-- `user_storage.delete_user`: soft-delete (clear `is_active`, commit),
then blacklist the key and invalidate its cache entry. -/
def delete_user (s : AuthState) (uid : Nat) : Bool × AuthState :=
  match s.users.find? (fun u => decide (u.id = uid)) with
  | none => (false, s)
  | some u =>
    let s1 : AuthState := { s with users := deactivateFirst uid s.users }
    (true, cacheInvalidateUser (blacklistKey s1 u.api_key) u.api_key)

/-- C1. When the cache backend is up (so revocation actually records the
blacklist entry), after a key reset or a user deactivation any subsequent
authenticate call with the old key resolves no identity — even though the
key had a positive cache entry immediately before the revocation — and the
blacklist is consulted before the cache on every authenticate: a
blacklisted key yields no identity in any state whatever the cache holds. -/
theorem revocation_wins (s : AuthState) (uid : Nat) (u u0 : UserRec) (newKey : String)
    (hfind : s.users.find? (fun v => decide (v.id = uid)) = some u)
    (hup : s.cacheUp = true)
    (hcached : cacheGetUser s u.api_key = some u0) :
    (∀ (t : AuthState) (k : String), is_key_blacklisted t k = true →
        (get_user_by_key t k).1 = none) ∧
    (get_user_by_key (reset_user_key s uid newKey).2 u.api_key).1 = none ∧
    (get_user_by_key (delete_user s uid).2 u.api_key).1 = none := by
  have hgen : ∀ (t : AuthState) (k : String), is_key_blacklisted t k = true →
      (get_user_by_key t k).1 = none := by
    intro t k h
    simp [get_user_by_key, h]
  refine ⟨hgen, ?_, ?_⟩
  · refine hgen _ _ ?_
    simp [reset_user_key, hfind, blacklistKey, cacheInvalidateUser, hup,
      is_key_blacklisted]
  · refine hgen _ _ ?_
    simp [delete_user, hfind, blacklistKey, cacheInvalidateUser, hup,
      is_key_blacklisted]

/-- Witness for C1: a cache-positive key, then a reset and a deactivation. -/
theorem revocation_wins_witness :
    ((⟨[⟨1, "Alice", "tok", true, false⟩],
       [("tok", ⟨1, "Alice", "tok", true, false⟩)], [], true⟩ : AuthState).users.find?
        (fun v => decide (v.id = 1)) = some ⟨1, "Alice", "tok", true, false⟩) ∧
    ((∀ (t : AuthState) (k : String), is_key_blacklisted t k = true →
        (get_user_by_key t k).1 = none) ∧
      (get_user_by_key (reset_user_key
          ⟨[⟨1, "Alice", "tok", true, false⟩],
           [("tok", ⟨1, "Alice", "tok", true, false⟩)], [], true⟩ 1 "fresh").2
        "tok").1 = none ∧
      (get_user_by_key (delete_user
          ⟨[⟨1, "Alice", "tok", true, false⟩],
           [("tok", ⟨1, "Alice", "tok", true, false⟩)], [], true⟩ 1).2
        "tok").1 = none) :=
  ⟨by decide,
   revocation_wins ⟨[⟨1, "Alice", "tok", true, false⟩],
       [("tok", ⟨1, "Alice", "tok", true, false⟩)], [], true⟩ 1
     ⟨1, "Alice", "tok", true, false⟩ ⟨1, "Alice", "tok", true, false⟩ "fresh"
     (by decide) (by decide) (by decide)⟩

/-- C10. With the cache backend uninitialized or raising, the blacklist
check reports not-blacklisted even for a key that is on the blacklist
(fails open), and authentication falls through to the durable-store
plaintext lookup. -/
theorem blacklist_fails_open (s : AuthState) (k : String)
    (hdown : s.cacheUp = false) (hbl : k ∈ s.blacklist) :
    is_key_blacklisted s k = false ∧
    (get_user_by_key s k).1 = dbUserLookup s.users k := by
  have h1 : is_key_blacklisted s k = false := by simp [is_key_blacklisted, hdown]
  refine ⟨h1, ?_⟩
  rcases hdb : dbUserLookup s.users k with _ | u <;>
    simp [get_user_by_key, h1, cacheGetUser, hdown, hdb]

/-- Witness for C10: a blacklisted but not rotated key authenticates during
a cache outage, straight from the durable store. -/
theorem blacklist_fails_open_witness :
    (⟨[⟨1, "Alice", "tok", true, false⟩], [], ["tok"], false⟩ : AuthState).cacheUp
        = false ∧
    "tok" ∈ (⟨[⟨1, "Alice", "tok", true, false⟩], [], ["tok"], false⟩
        : AuthState).blacklist ∧
    (is_key_blacklisted ⟨[⟨1, "Alice", "tok", true, false⟩], [], ["tok"], false⟩
        "tok" = false ∧
      (get_user_by_key ⟨[⟨1, "Alice", "tok", true, false⟩], [], ["tok"], false⟩
          "tok").1 =
        dbUserLookup [⟨1, "Alice", "tok", true, false⟩] "tok") :=
  ⟨rfl, by decide,
   blacklist_fails_open ⟨[⟨1, "Alice", "tok", true, false⟩], [], ["tok"], false⟩
     "tok" rfl (by decide)⟩

/-- A row of the `api_keys` table, as `auth.get_current_user` reads it. -/
structure APIKeyRec where
  user_id : Nat
  key_hash : String
  is_active : Bool
deriving DecidableEq

/-- `auth.get_current_user` (the FastAPI dependency): reject a missing or
empty key; the master/internal key resolves to the first active admin;
otherwise hash the presented key with `hash_key` (SHA-256 via `hashlib`,
supplied as the opaque `hashKey` since the hash itself is external library
code) and look the `api_keys` table up BY HASH, then resolve the active
user. Failures are `HTTPException(403)` values, modelled as `.error` with
the detail string. This path consults no cache. -/
def get_current_user (hashKey : String → String) (internalKey : String)
    (users : List UserRec) (apiKeys : List APIKeyRec) (api_key : String) :
    Except String UserRec :=
  if api_key = "" then .error "API Key missing"
  else if api_key = internalKey then
    match users.find? (fun u => u.is_admin && u.is_active) with
    | some u => .ok u
    | none => .error "No admin user found for internal key"
  else
    match apiKeys.find? (fun r2 => decide (r2.key_hash = hashKey api_key) &&
        r2.is_active) with
    | none => .error "Invalid API Key"
    | some r2 =>
      match users.find? (fun u => decide (u.id = r2.user_id) && u.is_active) with
      | none => .error "User associated with this key is inactive or not found"
      | some u => .ok u

/-- A stand-in hash whose only property the counterexample uses is that it
moves the token `tok` — true of SHA-256's hex digest as well, which is 64
characters long and therefore never equals this 3-character token. -/
def hashStub (t : String) : String := t ++ "#digest"

/-- Counterexample to C6 as stated: the cache-aside authenticate
(`get_user_by_key`) resolves a user whose STORED `api_key` is the plaintext
token itself, while the spec-worded hash lookup over the same state resolves
nothing — the code's cache-miss durable-store lookup compares the plaintext
token, not its hash. -/
theorem plaintext_lookup_counterexample :
    hashStub "tok" ≠ "tok" ∧
    (get_user_by_key ⟨[⟨1, "Alice", "tok", true, false⟩], [], [], true⟩ "tok").1 =
      some ⟨1, "Alice", "tok", true, false⟩ ∧
    (get_user_by_key_spec hashStub
        ⟨[⟨1, "Alice", "tok", true, false⟩], [], [], true⟩ "tok").1 = none := by
  decide

/-- C6 (amended). The cache-aside authenticate path (`get_user_by_key`)
performs its durable-store lookup by the PLAINTEXT token: an identity
resolved other than from the cache stores the presented token itself as its
`api_key`. The separate hashed path (`auth.get_current_user`), which
consults no cache, looks up by the one-way hash: a resolved key record's
stored `key_hash` equals the hash of the presented token. -/
theorem lookup_plaintext_vs_hash :
    (∀ (s : AuthState) (k : String) (u : UserRec),
        (get_user_by_key s k).1 = some u → cacheGetUser s k ≠ some u →
        u.api_key = k ∧ u.is_active = true) ∧
    (∀ (hashKey : String → String) (internalKey : String) (users : List UserRec)
        (apiKeys : List APIKeyRec) (k : String) (u : UserRec),
        k ≠ "" → k ≠ internalKey →
        get_current_user hashKey internalKey users apiKeys k = .ok u →
        ∃ r2 ∈ apiKeys, r2.key_hash = hashKey k ∧ r2.is_active = true ∧
          u.id = r2.user_id ∧ u.is_active = true) := by
  constructor
  · intro s k u hres hcache
    by_cases hbl : is_key_blacklisted s k
    · simp [get_user_by_key, hbl] at hres
    · rcases hc : cacheGetUser s k with _ | u'
      · rcases hdb : dbUserLookup s.users k with _ | u''
        · simp [get_user_by_key, hbl, hc, hdb] at hres
        · simp [get_user_by_key, hbl, hc, hdb] at hres
          have h5 := List.find?_some hdb
          rw [hres] at h5
          simpa using h5
      · simp [get_user_by_key, hbl, hc] at hres
        exact absurd (hc.trans (congrArg some hres)) hcache
  · intro hashKey internalKey users apiKeys k u hne hni hres
    rw [get_current_user, if_neg hne, if_neg hni] at hres
    rcases hk : apiKeys.find? (fun r2 => decide (r2.key_hash = hashKey k) &&
        r2.is_active) with _ | r2
    · rw [hk] at hres; exact absurd hres (by simp)
    · rw [hk] at hres
      simp only at hres
      rcases hu : users.find? (fun v => decide (v.id = r2.user_id) && v.is_active)
          with _ | u'
      · rw [hu] at hres; exact absurd hres (by simp)
      · rw [hu] at hres
        have hue : u' = u := by
          have := hres
          simp at this
          exact this
        have h6 := List.find?_some hk
        have h7 := List.find?_some hu
        rw [hue] at h7
        simp only [Bool.and_eq_true, decide_eq_true_eq] at h6 h7
        exact ⟨r2, List.mem_of_find?_eq_some hk, h6.1, h6.2, h7.1, h7.2⟩

/-- Witness for the amended C6: a plaintext hit on the cache-aside path and
a hash hit on the hashed path, at concrete tables. -/
theorem lookup_plaintext_vs_hash_witness :
    ((⟨1, "Alice", "tok", true, false⟩ : UserRec).api_key = "tok" ∧
      (⟨1, "Alice", "tok", true, false⟩ : UserRec).is_active = true) ∧
    (∃ r2 ∈ [(⟨1, "tok#digest", true⟩ : APIKeyRec)],
      r2.key_hash = hashStub "tok" ∧ r2.is_active = true ∧
        (⟨1, "Alice", "tok", true, false⟩ : UserRec).id = r2.user_id ∧
        (⟨1, "Alice", "tok", true, false⟩ : UserRec).is_active = true) :=
  ⟨lookup_plaintext_vs_hash.1 ⟨[⟨1, "Alice", "tok", true, false⟩], [], [], true⟩
     "tok" ⟨1, "Alice", "tok", true, false⟩ (by decide) (by decide),
   lookup_plaintext_vs_hash.2 hashStub "master" [⟨1, "Alice", "tok", true, false⟩]
     [⟨1, "tok#digest", true⟩] "tok" ⟨1, "Alice", "tok", true, false⟩
     (by decide) (by decide) rfl⟩

/-- Snapshot payload: the `turni` rows a backup file stores. `json.dump`
followed by `json.load` round-trips the value, so the model stores it
directly. -/
abbrev SheetData := List (List String)

/-- The backup directory `temp/backups`: filename to parsed content. -/
abbrev FileSys := List (String × SheetData)

/-- Python string comparison (as used by `list.sort`): code-point
lexicographic. -/
def charsLt : List Char → List Char → Bool
  | [], [] => false
  | [], _ :: _ => true
  | _ :: _, [] => false
  | a :: as, b :: bs =>
    if a.toNat < b.toNat then true
    else if b.toNat < a.toNat then false
    else charsLt as bs

/-- String order on the character data. -/
def strLt (a b : String) : Bool := charsLt a.data b.data

/-- The maximum of a list of names under the string order — the head after
`files.sort(reverse=True)`. -/
def maxName : List String → Option String
  | [] => none
  | s :: rest =>
    match maxName rest with
    | none => some s
    | some m => some (if strLt m s then s else m)

/-- Prefix test on character lists. -/
def startsWithChars : List Char → List Char → Bool
  | [], _ => true
  | _ :: _, [] => false
  | a :: as, b :: bs => a == b && startsWithChars as bs

/-- Filename test `f.endswith('.json')`. -/
def endsWithJson (name : String) : Bool :=
  startsWithChars ".json".data.reverse name.data.reverse

/-- Write `content` under `name`, overwriting — `open(filepath, "w")`. -/
def writeFile (fs : FileSys) (name : String) (content : SheetData) : FileSys :=
  fs.filter (fun p => decide (p.1 ≠ name)) ++ [(name, content)]

/-- `SheetsClient.save_versioned_local`: dump the rows to a NEW timestamped
file `shifts_{ts}.json`, `ts` being the formatted `datetime.now()`. -/
def save_versioned_local (fs : FileSys) (ts : String) (turni : SheetData) : FileSys :=
  writeFile fs ("shifts_" ++ ts ++ ".json") turni

/-- `SheetsClient.get_latest_local_backup`: list the `.json` files, return
`[]` if none, else read the newest by reverse-lexicographic filename sort
(an unreadable file also yields `[]`, the bare `except`). -/
def get_latest_local_backup (fs : FileSys) : SheetData :=
  match maxName ((fs.map (·.1)).filter endsWithJson) with
  | none => []
  | some latest =>
    match fs.find? (fun p => decide (p.1 = latest)) with
    | some p => p.2
    | none => []

/-- Outcome of the spreadsheet transport for one read: no service
(`self.service is None` after failed credentials), a raising remote call,
or a reachable spreadsheet with its tabs (title, values) and the legacy
`Sheet1` range contents. -/
inductive Transport where
  | unavailable
  | raising (msg : String)
  | available (tabs : List (String × SheetData)) (sheet1 : SheetData)

/-- Occurrence of a character pattern anywhere in a list. -/
def seqOccursIn (pat : List Char) : List Char → Bool
  | [] => startsWithChars pat []
  | c :: cs => startsWithChars pat (c :: cs) || seqOccursIn pat cs

/-- Python `'shifts_' in title`. -/
def titleHasShifts (title : String) : Bool :=
  seqOccursIn "shifts_".data title.data

/-- `SheetsClient.get_latest_sheet_data`: with no service, the local
fallback; with a reachable spreadsheet, the lexicographically last
`shifts_` tab's values (falling back to the `Sheet1` range when no such tab
exists, or to the local backup when the spreadsheet has no tabs at all);
any raised transport error falls back to the local backup. -/
def get_latest_sheet_data (t : Transport) (fs : FileSys) : SheetData :=
  match t with
  | .unavailable => get_latest_local_backup fs
  | .raising _ => get_latest_local_backup fs
  | .available tabs sheet1 =>
    if tabs = [] then get_latest_local_backup fs
    else
      match maxName ((tabs.map (·.1)).filter titleHasShifts) with
      | none => sheet1
      | some latest =>
        match tabs.find? (fun p => decide (p.1 = latest)) with
        | some p => p.2
        | none => []

theorem charsLt_asymm (a : List Char) : ∀ b, charsLt a b = true → charsLt b a = false := by
  induction a with
  | nil =>
    intro b h
    cases b with
    | nil => simp [charsLt] at h
    | cons y ys => simp [charsLt]
  | cons x xs ih =>
    intro b h
    cases b with
    | nil => simp [charsLt] at h
    | cons y ys =>
      rw [charsLt] at h
      rw [charsLt]
      by_cases h1 : x.toNat < y.toNat
      · rw [if_neg (by omega), if_pos h1]
      · by_cases h2 : y.toNat < x.toNat
        · rw [if_neg h1, if_pos h2] at h
          simp at h
        · rw [if_neg h1, if_neg h2] at h
          rw [if_neg h2, if_neg h1]
          exact ih ys h

theorem maxName_last (l : List String) (nm : String)
    (h : ∀ x ∈ l, strLt x nm = true) : maxName (l ++ [nm]) = some nm := by
  induction l with
  | nil => rfl
  | cons s rest ih =>
    rw [List.cons_append, maxName, ih (fun x hx => h x (List.mem_cons_of_mem s hx))]
    simp only
    rw [if_neg]
    rw [strLt]
    exact fun hc => by
      have := charsLt_asymm s.data nm.data (h s (List.mem_cons_self s rest))
      rw [hc] at this
      exact Bool.true_eq_false.mp this

theorem startsWithChars_self_append (l : List Char) :
    ∀ y, startsWithChars l (l ++ y) = true := by
  induction l with
  | nil => intro y; rfl
  | cons c cs ih =>
    intro y
    rw [List.cons_append, startsWithChars]
    simp [ih y]

theorem endsWithJson_snapshot (ts : String) :
    endsWithJson ("shifts_" ++ ts ++ ".json") = true := by
  rw [endsWithJson]
  simp only [String.data_append, List.reverse_append]
  exact startsWithChars_self_append ".json".data.reverse _

theorem find?_name_last (l : FileSys) (a : String × SheetData) (nm : String)
    (h : ∀ x ∈ l, x.1 ≠ nm) (ha : a.1 = nm) :
    (l ++ [a]).find? (fun p => decide (p.1 = nm)) = some a := by
  induction l with
  | nil =>
    rw [List.nil_append]
    rw [List.find?_cons_of_pos _ (by simp [ha])]
  | cons x xs ih =>
    rw [List.cons_append,
      List.find?_cons_of_neg _ (by simp [h x (List.mem_cons_self x xs)])]
    exact ih (fun y hy => h y (List.mem_cons_of_mem x hy))

/-- C8. Round trip: `save_versioned_local` followed by
`get_latest_sheet_data` with the spreadsheet transport unavailable or
raising returns exactly the just-published record list — the fallback
selects the newest snapshot file by reverse-lexicographic (timestamp-named)
ordering. Hypothesis: the new timestamped name sorts strictly after every
`.json` file already in the backup directory (the clock's timestamps
increase). -/
theorem publish_then_latest_roundtrip (fs : FileSys) (ts : String) (turni : SheetData)
    (e : String)
    (hfresh : ∀ name ∈ fs.map (·.1), endsWithJson name = true →
        strLt name ("shifts_" ++ ts ++ ".json") = true) :
    get_latest_sheet_data .unavailable (save_versioned_local fs ts turni) = turni ∧
    get_latest_sheet_data (.raising e) (save_versioned_local fs ts turni) = turni := by
  have hfilter : ∀ x ∈ fs.filter (fun p => decide (p.1 ≠ "shifts_" ++ ts ++ ".json")),
      x.1 ≠ "shifts_" ++ ts ++ ".json" := by
    intro x hx
    simpa using (List.mem_filter.mp hx).2
  have hnames : ∀ x ∈ ((fs.filter (fun p =>
        decide (p.1 ≠ "shifts_" ++ ts ++ ".json"))).map (·.1)).filter endsWithJson,
      strLt x ("shifts_" ++ ts ++ ".json") = true := by
    intro x hx
    obtain ⟨hxm, hxj⟩ := List.mem_filter.mp hx
    obtain ⟨p, hp, hpx⟩ := List.mem_map.mp hxm
    exact hfresh x (List.mem_map.mpr ⟨p, (List.mem_filter.mp hp).1, hpx⟩) hxj
  have hmax : maxName
      (((save_versioned_local fs ts turni).map (·.1)).filter endsWithJson) =
      some ("shifts_" ++ ts ++ ".json") := by
    rw [save_versioned_local, writeFile, List.map_append, List.filter_append]
    simp only [List.map_cons, List.map_nil, List.filter_cons, List.filter_nil]
    rw [if_pos (endsWithJson_snapshot ts)]
    exact maxName_last _ _ hnames
  have hfind : (save_versioned_local fs ts turni).find?
      (fun p => decide (p.1 = "shifts_" ++ ts ++ ".json")) =
      some ("shifts_" ++ ts ++ ".json", turni) :=
    find?_name_last _ _ _ hfilter rfl
  have hmain : get_latest_local_backup (save_versioned_local fs ts turni) = turni := by
    rw [get_latest_local_backup, hmax]
    simp only
    rw [hfind]
  exact ⟨hmain, hmain⟩

/-- Witness for C8: a directory with one older snapshot, a fresh publish,
and both failure modes of the transport. -/
theorem publish_then_latest_roundtrip_witness :
    (∀ name ∈ ([("shifts_20240101_000000.json", [["old"]])] : FileSys).map (·.1),
        endsWithJson name = true →
        strLt name ("shifts_" ++ "20240301_120000" ++ ".json") = true) ∧
    (get_latest_sheet_data .unavailable
        (save_versioned_local [("shifts_20240101_000000.json", [["old"]])]
          "20240301_120000" [["2024-03-01", "Fri", "Alice", "08:00"]]) =
      [["2024-03-01", "Fri", "Alice", "08:00"]] ∧
     get_latest_sheet_data (.raising "boom")
        (save_versioned_local [("shifts_20240101_000000.json", [["old"]])]
          "20240301_120000" [["2024-03-01", "Fri", "Alice", "08:00"]]) =
      [["2024-03-01", "Fri", "Alice", "08:00"]]) :=
  ⟨by decide,
   publish_then_latest_roundtrip [("shifts_20240101_000000.json", [["old"]])]
     "20240301_120000" [["2024-03-01", "Fri", "Alice", "08:00"]] "boom" (by decide)⟩

/-- Index of the first occurrence of the pattern (Python `sep in s` /
`str.find` for a nonempty separator). -/
def firstOcc (pat : List Char) : List Char → Option Nat
  | [] => none
  | c :: cs =>
    if startsWithChars pat (c :: cs) then some 0
    else (firstOcc pat cs).map (· + 1)

/-- Characters strictly before the first occurrence of `pat`; the whole list
when absent — `split(sep)[0]`. -/
def takeBeforeSeq (pat cs : List Char) : List Char :=
  match firstOcc pat cs with
  | some i => cs.take i
  | none => cs

/-- Characters after the first occurrence of `pat` — the start of
`split(sep)[1]`; the input itself when absent (only used under a
containment guard). -/
def dropAfterSeq (pat cs : List Char) : List Char :=
  match firstOcc pat cs with
  | some i => cs.drop (i + pat.length)
  | none => cs

/-- Python `str.strip` whitespace set (ASCII). -/
def isSpaceChar (c : Char) : Bool :=
  c == ' ' || c == '\t' || c == '\n' || c == '\r' || c == '\x0b' || c == '\x0c'

/-- `str.strip()`. -/
def stripChars (cs : List Char) : List Char :=
  ((cs.dropWhile isSpaceChar).reverse.dropWhile isSpaceChar).reverse

/-- The fence-stripping step of `process_image_logic`: when the response
contains a ```json fence, take the text after it, cut at the next ``` and
strip it (`split("```json")[1].split("```")[0].strip()` — cutting at the
next plain fence subsumes the `[1]` segment bound, since every ```json
occurrence starts with ```); likewise for a plain ``` fence; otherwise the
text is left unchanged. -/
def cleanFences (raw : String) : String :=
  if (firstOcc "```json".data raw.data).isSome then
    String.mk (stripChars (takeBeforeSeq "```".data
      (dropAfterSeq "```json".data raw.data)))
  else if (firstOcc "```".data raw.data).isSome then
    String.mk (stripChars (takeBeforeSeq "```".data
      (dropAfterSeq "```".data raw.data)))
  else raw

/-- `raw_response.find('{')`, `-1` modelled as `none`. -/
def firstBraceIdx : List Char → Option Nat
  | [] => none
  | c :: cs => if c = '\x7b' then some 0 else (firstBraceIdx cs).map (· + 1)

/-- `raw_response.rfind('}')`, `-1` modelled as `none`. -/
def lastBraceIdx : List Char → Option Nat
  | [] => none
  | c :: cs =>
    match lastBraceIdx cs with
    | some j => some (j + 1)
    | none => if c = '\x7d' then some 0 else none

/-- The brace-isolation step: slice from the first opening brace to the last
closing brace when both exist (`raw_response[start_idx:end_idx+1]`), else
leave the text unchanged. -/
def isolateJson (s : String) : String :=
  match firstBraceIdx s.data, lastBraceIdx s.data with
  | some i, some j => String.mk ((s.data.drop i).take (j + 1 - i))
  | _, _ => s

/-- Result of the JSON-consuming step: a parsed value, or the recoverable
error dictionary the code builds on failure. -/
inductive ParseOutcome (J : Type) where
  | parsed (j : J)
  | malformed (errorMarker : String) (raw : String)

/-- The JSON-consuming tail of `process_image_logic`: strip fences, isolate
the braces, and parse (the external `json.loads`, given as `jsonParse`); a
parse failure is caught and turned into the dictionary with keys `error`
(the marker `JSON malformato`) and `raw` (the text as parsed), rather than
letting the exception escape — the embedding is a total function, mirroring
the `except` block. -/
def process_model_response {J : Type} (jsonParse : String → Option J)
    (raw0 : String) : ParseOutcome J :=
  match jsonParse (isolateJson (cleanFences raw0)) with
  | some j => .parsed j
  | none => .malformed "JSON malformato" (isolateJson (cleanFences raw0))

theorem firstBraceIdx_spec (l : List Char) :
    ∀ i, firstBraceIdx l = some i →
      ∃ pre suf, l = pre ++ '\x7b' :: suf ∧ pre.length = i ∧
        ∀ c ∈ pre, c ≠ '\x7b' := by
  induction l with
  | nil => intro i h; exact absurd h (by simp [firstBraceIdx])
  | cons c cs ih =>
    intro i h
    by_cases hc : c = '\x7b'
    · rw [firstBraceIdx, if_pos hc] at h
      refine ⟨[], cs, by rw [hc]; rfl, by simpa using h, by simp⟩
    · rw [firstBraceIdx, if_neg hc] at h
      rcases ho : firstBraceIdx cs with _ | i'
      · rw [ho] at h; exact absurd h (by simp)
      · rw [ho] at h
        obtain ⟨pre, suf, he, hl, hn⟩ := ih i' ho
        refine ⟨c :: pre, suf, by rw [List.cons_append, he], ?_, ?_⟩
        · simp only [List.length_cons, hl]
          simpa using h
        · intro x hx
          rcases List.mem_cons.mp hx with hx | hx
          · exact hx ▸ hc
          · exact hn x hx

theorem lastBraceIdx_none (l : List Char) (h : lastBraceIdx l = none) :
    ∀ c ∈ l, c ≠ '\x7d' := by
  induction l with
  | nil => intro c hc; exact absurd hc (by simp)
  | cons x xs ih =>
    intro c hc
    rw [lastBraceIdx] at h
    rcases ho : lastBraceIdx xs with _ | j
    · rw [ho] at h
      by_cases hx : x = '\x7d'
      · rw [if_pos hx] at h; exact absurd h (by simp)
      · rcases List.mem_cons.mp hc with hc | hc
        · exact hc ▸ hx
        · exact ih ho c hc
    · rw [ho] at h; exact absurd h (by simp)

theorem lastBraceIdx_spec (l : List Char) :
    ∀ j, lastBraceIdx l = some j →
      ∃ pre suf, l = pre ++ '\x7d' :: suf ∧ pre.length = j ∧
        ∀ c ∈ suf, c ≠ '\x7d' := by
  induction l with
  | nil => intro j h; exact absurd h (by simp [lastBraceIdx])
  | cons c cs ih =>
    intro j h
    rw [lastBraceIdx] at h
    rcases ho : lastBraceIdx cs with _ | j'
    · rw [ho] at h
      by_cases hc : c = '\x7d'
      · rw [if_pos hc] at h
        refine ⟨[], cs, by rw [hc]; rfl, by simpa using h, lastBraceIdx_none cs ho⟩
      · rw [if_neg hc] at h; exact absurd h (by simp)
    · rw [ho] at h
      obtain ⟨pre, suf, he, hl, hn⟩ := ih j' ho
      refine ⟨c :: pre, suf, by rw [List.cons_append, he], ?_, hn⟩
      simp only [List.length_cons, hl]
      simpa using h

/-- C9. The consumer isolates the substring from the first opening brace to
the last closing brace of the fence-stripped text before parsing: when both
braces occur in order, the parsed slice is an infix of the text beginning
with the first opening brace (nothing before it holds one) and ending with
the last closing brace (nothing after it holds one); and on parse failure
the result is the recoverable error dictionary carrying the marker and that
same text — never a propagated exception, the embedding being total. -/
theorem json_isolation_and_recovery :
    (∀ (s : String) (i j : Nat), firstBraceIdx s.data = some i →
      lastBraceIdx s.data = some j → i ≤ j →
      ∃ pre post, s.data = pre ++ (isolateJson s).data ++ post ∧
        pre.length = i ∧ (∀ c ∈ pre, c ≠ '\x7b') ∧ (∀ c ∈ post, c ≠ '\x7d') ∧
        (isolateJson s).data.head? = some '\x7b' ∧
        (isolateJson s).data.getLast? = some '\x7d') ∧
    (∀ (J : Type) (jsonParse : String → Option J) (raw : String),
      jsonParse (isolateJson (cleanFences raw)) = none →
      process_model_response jsonParse raw =
        .malformed "JSON malformato" (isolateJson (cleanFences raw))) := by
  constructor
  · intro s i j hi hj hij
    have hslice : (isolateJson s).data = (s.data.drop i).take (j + 1 - i) := by
      rw [isolateJson, hi, hj]
    obtain ⟨preI, sufI, heI, hlI, hnI⟩ := firstBraceIdx_spec s.data i hi
    obtain ⟨preJ, sufJ, heJ, hlJ, hnJ⟩ := lastBraceIdx_spec s.data j hj
    have hilen : i ≤ s.data.length := by
      rw [heI, List.length_append, List.length_cons, hlI]; omega
    have htake : s.data.take i = preI := by
      rw [heI, ← hlI, List.take_left]
    have hdropI : s.data.drop i = '\x7b' :: sufI := by
      rw [heI, ← hlI]; exact List.drop_left _ _
    have hdropJ : s.data.drop (j + 1) = sufJ := by
      rw [heJ, show preJ ++ '\x7d' :: sufJ = (preJ ++ ['\x7d']) ++ sufJ by simp,
        show j + 1 = (preJ ++ ['\x7d']).length by simp [hlJ]]
      exact List.drop_left _ _
    have hdropIJ : s.data.drop i = preJ.drop i ++ '\x7d' :: sufJ := by
      rw [heJ, List.drop_append_eq_append_drop,
        show i - preJ.length = 0 by omega, List.drop_zero]
    have hlen2 : (preJ.drop i).length = j - i := by
      rw [List.length_drop, hlJ]
    refine ⟨s.data.take i, s.data.drop (j + 1), ?_, ?_, ?_, ?_, ?_, ?_⟩
    · rw [hslice,
        show s.data.drop (j + 1) = (s.data.drop i).drop (j + 1 - i) by
          rw [List.drop_drop, show i + (j + 1 - i) = j + 1 by omega],
        List.append_assoc, List.take_append_drop, List.take_append_drop]
    · rw [List.length_take]; omega
    · intro c hc
      rw [htake] at hc
      exact hnI c hc
    · intro c hc
      rw [hdropJ] at hc
      exact hnJ c hc
    · rw [hslice, hdropI, show j + 1 - i = (j - i) + 1 by omega, List.take_succ_cons]
      rfl
    · rw [hslice, hdropIJ, List.take_append_eq_append_take,
        List.take_of_length_le (by rw [hlen2]; omega), hlen2,
        show j + 1 - i - (j - i) = 1 by omega,
        show ('\x7d' :: sufJ).take 1 = ['\x7d'] from rfl]
      exact List.getLast?_concat _
  · intro J jsonParse raw h
    rw [process_model_response, h]

/-- Witness for C9: the brace isolation on a concrete response and the
recovery dictionary for a failing parser. -/
theorem json_isolation_and_recovery_witness :
    (∃ pre post, "ab\x7bc\x7dd".data = pre ++ (isolateJson "ab\x7bc\x7dd").data ++ post ∧
        pre.length = 2 ∧ (∀ c ∈ pre, c ≠ '\x7b') ∧ (∀ c ∈ post, c ≠ '\x7d') ∧
        (isolateJson "ab\x7bc\x7dd").data.head? = some '\x7b' ∧
        (isolateJson "ab\x7bc\x7dd").data.getLast? = some '\x7d') ∧
    process_model_response (fun _ => (none : Option Unit)) "x\x7by\x7dz" =
      .malformed "JSON malformato" (isolateJson (cleanFences "x\x7by\x7dz")) :=
  ⟨json_isolation_and_recovery.1 "ab\x7bc\x7dd" 2 4 (by decide) (by decide) (by decide),
   json_isolation_and_recovery.2 Unit (fun _ => none) "x\x7by\x7dz" rfl⟩

end ShiftAgent
